import Mathlib

/-!
Verification of the `nice-enum` derive macro (`src/lib.rs`, `nice_enum_impl`).

The transformation consumes a parsed `DeriveInput` (name, visibility,
generics, and the enum's variant list) and emits a payload-free "kind"
enum plus an `impl` block with a `kind()` method, per-variant `is_*`
predicates, and `as_*` / `as_*_mut` / `into_*` accessors for variants
with exactly one unnamed field.

The embedding below mirrors `nice_enum_impl` structurally: token streams
that the Rust code builds with `quote!` are represented as structured
records (patterns, match arms, method descriptors), identifiers and types
as strings, and the `panic!` on non-enum input as `Option.none`.
-/

/-- The shape of a variant's fields, mirroring `syn::Fields`:
`Named` (field name and type pairs), `Unnamed` (ordered field types),
or `Unit`. Types and field names are represented textually. -/
inductive VFields where
  | named : List (String × String) → VFields
  | unnamed : List String → VFields
  | unit : VFields
  deriving DecidableEq, Repr

/-- One variant of the input enum, mirroring `syn::Variant`:
its identifier and its fields. -/
structure VariantDecl where
  ident : String
  fields : VFields
  deriving DecidableEq, Repr

/-- The body of the input declaration, mirroring `syn::Data`:
an enum (with its variant list), a struct, or a union. -/
inductive Data where
  | enum : List VariantDecl → Data
  | struct : Data
  | union : Data
  deriving DecidableEq, Repr

/-- The three pieces `syn::Generics::split_for_impl` yields, kept as
opaque text: generics for the `impl` header, generics applied to the
type, and the `where` clause. -/
structure Generics where
  implGenerics : String
  tyGenerics : String
  whereClause : String
  deriving DecidableEq, Repr

/-- The parsed input of the derive macro, mirroring `syn::DeriveInput`:
visibility, type identifier, generics, and the body. -/
structure DeriveInput where
  vis : String
  ident : String
  generics : Generics
  data : Data
  deriving DecidableEq, Repr

/-- True for the word delimiters that `convert_case` always splits on:
underscore, hyphen and space. -/
def isWordDelim (c : Char) : Bool :=
  c == '_' || c == '-' || c == ' '

/-- True when a word boundary falls between `prev` and `cur` (with
`next` the character after `cur`), following `convert_case`'s default
boundaries: lower→upper, digit→upper, upper→digit, digit→lower, and the
acronym boundary upper→upper-followed-by-lower. -/
def isCaseBoundary (prev cur : Char) (next : Option Char) : Bool :=
  (prev.isLower && cur.isUpper) ||
  (prev.isDigit && cur.isUpper) ||
  (prev.isUpper && cur.isDigit) ||
  (prev.isDigit && cur.isLower) ||
  (prev.isUpper && cur.isUpper && ((next.map Char.isLower).getD false))

/-- Splits a character list into words at delimiters and case
boundaries. `acc` holds the current word reversed. -/
def splitWordsAux : List Char → List Char → List (List Char)
  | [], acc => if acc.isEmpty then [] else [acc.reverse]
  | c :: rest, acc =>
    if isWordDelim c then
      (if acc.isEmpty then [] else [acc.reverse]) ++ splitWordsAux rest []
    else
      match acc with
      | [] => splitWordsAux rest [c]
      | p :: _ =>
        if isCaseBoundary p c rest.head? then
          acc.reverse :: splitWordsAux rest (c :: [])
        else
          splitWordsAux rest (c :: acc)

/-- Snake-case conversion, modelling `convert_case`'s
`to_case(Case::Snake)` as called on variant identifiers in
`nice_enum_impl`: split into words at delimiters and camel/Pascal and
digit boundaries, lowercase each word, join with underscores. -/
def toSnakeCase (s : String) : String :=
  String.intercalate "_" ((splitWordsAux s.data []).map fun w => String.mk (w.map Char.toLower))

/-- A match pattern over the source enum, as generated for the arms of
`kind()`. `unnamedWild i a` stands for `Self::i(_)`-style patterns with
`a` sub-pattern slots (the code always emits a single `_`, hence
arity 1); `wildcard` stands for a `_` fallback arm (never generated for
`kind()`, present so that its absence is expressible). -/
inductive Pattern where
  | unitPat : String → Pattern
  | namedWild : String → Pattern
  | unnamedWild : String → Nat → Pattern
  | wildcard : Pattern
  deriving DecidableEq, Repr

/-- The variant identifier a non-wildcard pattern mentions. -/
def Pattern.patIdent : Pattern → Option String
  | .unitPat i => some i
  | .namedWild i => some i
  | .unnamedWild i _ => some i
  | .wildcard => none

/-- Rust match semantics of a generated pattern against a value of the
given variant: the identifiers must agree and the pattern's slots must
fit the variant's shape. `Self::V { .. }` covers any named-field count,
while `Self::V(_)` (arity `a`) requires exactly `a` unnamed fields —
a pattern with the wrong slot count is rejected by the compiler
(error E0023) and so matches nothing. -/
def Pattern.matchesVariant : Pattern → VariantDecl → Bool
  | .wildcard, _ => true
  | .unitPat i, v =>
    match v.fields with
    | .unit => i == v.ident
    | _ => false
  | .namedWild i, v =>
    match v.fields with
    | .named _ => i == v.ident
    | _ => false
  | .unnamedWild i a, v =>
    match v.fields with
    | .unnamed tys => i == v.ident && tys.length == a
    | _ => false

/-- How a generated method takes `self`: `&self`, `&mut self`, or by
value. -/
inductive SelfMode where
  | ref
  | mutRef
  | owned
  deriving DecidableEq, Repr

/-- A generated single-field accessor (`as_*`, `as_*_mut` or `into_*`):
its visibility, name, `self` mode, payload type, and the variant
identifier its `Self::V(v) => Some(v)` arm matches. -/
structure AccessorMethod where
  vis : String
  name : String
  selfMode : SelfMode
  innerTy : String
  variantIdent : String
  deriving DecidableEq, Repr

/-- One arm of the generated `kind()` match: a pattern and the
qualified kind case `(kind type name, case name)` it yields. -/
structure MatchArm where
  pattern : Pattern
  target : String × String
  deriving DecidableEq, Repr

/-- The generated `kind()` method: visibility, name, `self` mode,
return type, and its match arms in emission order. -/
structure KindMethod where
  vis : String
  name : String
  selfMode : SelfMode
  returnType : String
  arms : List MatchArm
  deriving DecidableEq, Repr

/-- A generated `is_*` predicate: visibility, name, `self` mode, and
the qualified kind case its body `matches!(self.kind(), tag)` compares
the extracted tag against. -/
structure IsMethod where
  vis : String
  name : String
  selfMode : SelfMode
  tag : String × String
  deriving DecidableEq, Repr

/-- The classifier's per-variant record, mirroring the local
`struct Variant` in `nice_enum_impl`. -/
structure ClassifiedVariant where
  ident : String
  qualified : String × String
  asMethod : Option AccessorMethod
  asMutMethod : Option AccessorMethod
  intoMethod : Option AccessorMethod
  isVariantMethod : String
  sourceArm : Pattern
  deriving DecidableEq, Repr

/-- Per-variant classification, mirroring the closure in
`nice_enum_impl` (src/lib.rs lines 31–111): snake-case the identifier,
derive the qualified kind reference, the `is_*` name, the `kind()` arm
pattern, and — only when the variant has exactly one unnamed field —
the three accessor methods. The span normalization
(`ident.set_span(Span::call_site())`) leaves the textual identifier
unchanged and has no counterpart in this span-free model. -/
def classifyVariant (vis kindIdent : String) (v : VariantDecl) : ClassifiedVariant :=
  let ident := v.ident
  let snake := toSnakeCase ident
  let qualified := (kindIdent, ident)
  let isVariantMethod := "is_" ++ snake
  match v.fields with
  | .named _ =>
    ⟨ident, qualified, none, none, none, isVariantMethod, .namedWild ident⟩
  | .unnamed [t] =>
    let asM : AccessorMethod := ⟨vis, "as_" ++ snake, .ref, t, ident⟩
    let asMutM : AccessorMethod := ⟨vis, "as_" ++ snake ++ "_mut", .mutRef, t, ident⟩
    let intoM : AccessorMethod := ⟨vis, "into_" ++ snake, .owned, t, ident⟩
    ⟨ident, qualified, some asM, some asMutM, some intoM, isVariantMethod, .unnamedWild ident 1⟩
  | .unnamed _ =>
    ⟨ident, qualified, none, none, none, isVariantMethod, .unnamedWild ident 1⟩
  | .unit =>
    ⟨ident, qualified, none, none, none, isVariantMethod, .unitPat ident⟩

/-- The emitted kind type: its derive list, visibility, name, and
payload-free case names in emission order. -/
structure KindDecl where
  derives : List String
  vis : String
  ident : String
  cases : List String
  deriving DecidableEq, Repr

/-- One method of the generated `impl` block. -/
inductive Method where
  | kindFn : KindMethod → Method
  | isFn : IsMethod → Method
  | accessorFn : AccessorMethod → Method
  deriving DecidableEq, Repr

/-- The visibility a generated method carries. -/
def Method.vis : Method → String
  | .kindFn m => m.vis
  | .isFn m => m.vis
  | .accessorFn m => m.vis

/-- The generated `impl` block: the reproduced generics and `where`
clause, the source type it is scoped to, and its methods in emission
order. -/
structure ImplBlock where
  implGenerics : String
  selfTy : String
  tyGenerics : String
  whereClause : String
  methods : List Method
  deriving DecidableEq, Repr

/-- The full output of the transformation: the kind type declaration
followed by the `impl` block. -/
structure Output where
  kindDecl : KindDecl
  implBlock : ImplBlock
  deriving DecidableEq, Repr

/-- The core transformation, mirroring `nice_enum_impl`
(src/lib.rs lines 6–191). Non-enum input makes the Rust code
`panic!("NiceEnum can only be derived for enums")`; the panic is
modelled as `none`. For enum input: classify each variant, emit the
kind enum (one bare case per variant, with the derive list of line
123), then the `impl` block containing `kind()`, the predicates in
variant order, and the three accessor families filtered to
single-unnamed-field variants, concatenated in the order of the final
`quote!` (lines 176–190). -/
def nice_enum_impl (input : DeriveInput) : Option Output :=
  match input.data with
  | .enum inputVariants =>
    let vis := input.vis
    let sourceIdent := input.ident
    let kindIdentName := input.ident ++ "Kind"
    let variants := inputVariants.map (classifyVariant vis kindIdentName)
    let kindDecl : KindDecl :=
      ⟨["Debug", "Clone", "Copy", "PartialEq", "Eq", "PartialOrd", "Ord", "Hash"],
       vis, kindIdentName, variants.map (·.ident)⟩
    let sourceKindFn : KindMethod :=
      ⟨vis, "kind", .ref, kindIdentName,
       variants.map fun v => ⟨v.sourceArm, v.qualified⟩⟩
    let sourceIsVariantFns : List IsMethod :=
      variants.map fun v => ⟨vis, v.isVariantMethod, .ref, v.qualified⟩
    let sourceAsVariantFns : List AccessorMethod :=
      variants.filterMap (·.asMethod)
    let sourceAsMutVariantFns : List AccessorMethod :=
      variants.filterMap (·.asMutMethod)
    let sourceIntoVariantFns : List AccessorMethod :=
      variants.filterMap (·.intoMethod)
    some
      ⟨kindDecl,
       ⟨input.generics.implGenerics, sourceIdent, input.generics.tyGenerics,
        input.generics.whereClause,
        [Method.kindFn sourceKindFn]
          ++ sourceIsVariantFns.map Method.isFn
          ++ sourceAsVariantFns.map Method.accessorFn
          ++ sourceAsMutVariantFns.map Method.accessorFn
          ++ sourceIntoVariantFns.map Method.accessorFn⟩⟩
  | _ => none

/-!
Semantics of the generated code. A value of the source enum is
identified by the index of its variant in the declaration list: none of
the generated match arms inspects payload contents, so the variant
index determines which arm fires.
-/

/-- First-match semantics of a generated match over the source enum:
the target of the first arm whose pattern matches a value of variant
`v`, or `none` when no arm matches (in Rust this manifests as a
compile-time error: E0023 for a slot-count mismatch, E0004 for a
non-exhaustive match). -/
def findArm : List MatchArm → VariantDecl → Option (String × String)
  | [], _ => none
  | a :: rest, v => if a.pattern.matchesVariant v then some a.target else findArm rest v

/-- Evaluation of the generated `kind()` on the value whose variant is
`vs[idx]`: the qualified kind case its match yields. -/
def evalKind (m : KindMethod) (vs : List VariantDecl) (idx : Nat) : Option (String × String) :=
  (vs[idx]?).bind fun v => findArm m.arms v

/-- Evaluation of a generated `is_*` predicate on the value whose
variant is `vs[idx]`. The body is `matches!(self.kind(), tag)`: it
delegates to `kind()` and compares the extracted tag against the
stored expected tag, so its semantics is a pure function of
`evalKind`. -/
def evalIs (m : IsMethod) (kindFn : KindMethod) (vs : List VariantDecl) (idx : Nat) : Option Bool :=
  (evalKind kindFn vs idx).map fun t => t == m.tag

/-- The name a generated method carries. -/
def Method.name : Method → String
  | .kindFn m => m.name
  | .isFn m => m.name
  | .accessorFn m => m.name

/-- Projects a method to its `is_*` descriptor when it is one. -/
def isFnPart : Method → Option IsMethod
  | .isFn p => some p
  | _ => none

/-- Projects a method to its accessor descriptor when it is one. -/
def accessorFnPart : Method → Option AccessorMethod
  | .accessorFn a => some a
  | _ => none

/-- The `is_*` predicates of the generated `impl` block, in emission
order. -/
def Output.isMethods (o : Output) : List IsMethod :=
  o.implBlock.methods.filterMap isFnPart

/-- The accessor methods of the generated `impl` block, in emission
order. -/
def Output.accessorMethods (o : Output) : List AccessorMethod :=
  o.implBlock.methods.filterMap accessorFnPart

/-- The borrowing accessor a variant yields: present exactly for a
single unnamed field. -/
def expectedAs (vis : String) (v : VariantDecl) : Option AccessorMethod :=
  match v.fields with
  | .unnamed [t] => some ⟨vis, "as_" ++ toSnakeCase v.ident, .ref, t, v.ident⟩
  | _ => none

/-- The mutable-borrowing accessor a variant yields. -/
def expectedAsMut (vis : String) (v : VariantDecl) : Option AccessorMethod :=
  match v.fields with
  | .unnamed [t] => some ⟨vis, "as_" ++ toSnakeCase v.ident ++ "_mut", .mutRef, t, v.ident⟩
  | _ => none

/-- The consuming accessor a variant yields. -/
def expectedInto (vis : String) (v : VariantDecl) : Option AccessorMethod :=
  match v.fields with
  | .unnamed [t] => some ⟨vis, "into_" ++ toSnakeCase v.ident, .owned, t, v.ident⟩
  | _ => none

/-- The `is_*` predicate a variant yields. -/
def expectedIs (vis kindName : String) (v : VariantDecl) : IsMethod :=
  ⟨vis, "is_" ++ toSnakeCase v.ident, .ref, (kindName, v.ident)⟩

/-- The `kind()` arm a variant yields. -/
def expectedArm (kindName : String) (v : VariantDecl) : MatchArm :=
  ⟨(classifyVariant "" kindName v).sourceArm, (kindName, v.ident)⟩

theorem classifyVariant_ident (vis k : String) (v : VariantDecl) :
    (classifyVariant vis k v).ident = v.ident := by
  rcases v with ⟨i, f⟩
  rcases f with f | l | _
  · rfl
  · rcases l with _ | ⟨t, l⟩
    · rfl
    · rcases l with _ | ⟨t2, l⟩ <;> rfl
  · rfl

theorem classifyVariant_qualified (vis k : String) (v : VariantDecl) :
    (classifyVariant vis k v).qualified = (k, v.ident) := by
  rcases v with ⟨i, f⟩
  rcases f with f | l | _
  · rfl
  · rcases l with _ | ⟨t, l⟩
    · rfl
    · rcases l with _ | ⟨t2, l⟩ <;> rfl
  · rfl

theorem classifyVariant_isVariantMethod (vis k : String) (v : VariantDecl) :
    (classifyVariant vis k v).isVariantMethod = "is_" ++ toSnakeCase v.ident := by
  rcases v with ⟨i, f⟩
  rcases f with f | l | _
  · rfl
  · rcases l with _ | ⟨t, l⟩
    · rfl
    · rcases l with _ | ⟨t2, l⟩ <;> rfl
  · rfl

theorem classifyVariant_sourceArm (vis k : String) (v : VariantDecl) :
    (classifyVariant vis k v).sourceArm =
      match v.fields with
      | .named _ => .namedWild v.ident
      | .unnamed _ => .unnamedWild v.ident 1
      | .unit => .unitPat v.ident := by
  rcases v with ⟨i, f⟩
  rcases f with f | l | _
  · rfl
  · rcases l with _ | ⟨t, l⟩
    · rfl
    · rcases l with _ | ⟨t2, l⟩ <;> rfl
  · rfl

theorem classifyVariant_sourceArm_indep (vis vis2 k : String) (v : VariantDecl) :
    (classifyVariant vis k v).sourceArm = (classifyVariant vis2 k v).sourceArm := by
  rw [classifyVariant_sourceArm, classifyVariant_sourceArm]

theorem classifyVariant_sourceArm_patIdent (vis k : String) (v : VariantDecl) :
    (classifyVariant vis k v).sourceArm.patIdent = some v.ident := by
  rw [classifyVariant_sourceArm]
  rcases v with ⟨i, f⟩
  rcases f with f | l | _ <;> rfl

theorem classifyVariant_asMethod (vis k : String) (v : VariantDecl) :
    (classifyVariant vis k v).asMethod = expectedAs vis v := by
  rcases v with ⟨i, f⟩
  rcases f with f | l | _
  · rfl
  · rcases l with _ | ⟨t, l⟩
    · rfl
    · rcases l with _ | ⟨t2, l⟩ <;> rfl
  · rfl

theorem classifyVariant_asMutMethod (vis k : String) (v : VariantDecl) :
    (classifyVariant vis k v).asMutMethod = expectedAsMut vis v := by
  rcases v with ⟨i, f⟩
  rcases f with f | l | _
  · rfl
  · rcases l with _ | ⟨t, l⟩
    · rfl
    · rcases l with _ | ⟨t2, l⟩ <;> rfl
  · rfl

theorem classifyVariant_intoMethod (vis k : String) (v : VariantDecl) :
    (classifyVariant vis k v).intoMethod = expectedInto vis v := by
  rcases v with ⟨i, f⟩
  rcases f with f | l | _
  · rfl
  · rcases l with _ | ⟨t, l⟩
    · rfl
    · rcases l with _ | ⟨t2, l⟩ <;> rfl
  · rfl

theorem map_classify_ident (vis K : String) (vs : List VariantDecl) :
    (vs.map (classifyVariant vis K)).map ClassifiedVariant.ident = vs.map VariantDecl.ident := by
  induction vs with
  | nil => rfl
  | cons v vs ih => simp [ih, classifyVariant_ident]

theorem map_classify_arm (vis K : String) (vs : List VariantDecl) :
    (vs.map (classifyVariant vis K)).map (fun v => MatchArm.mk v.sourceArm v.qualified) =
      vs.map (expectedArm K) := by
  induction vs with
  | nil => rfl
  | cons v vs ih =>
    simp [ih, expectedArm, classifyVariant_qualified,
      classifyVariant_sourceArm_indep vis "" K v]

theorem map_classify_is (vis K : String) (vs : List VariantDecl) :
    (vs.map (classifyVariant vis K)).map
        (fun v => IsMethod.mk vis v.isVariantMethod SelfMode.ref v.qualified) =
      vs.map (expectedIs vis K) := by
  induction vs with
  | nil => rfl
  | cons v vs ih =>
    simp [ih, expectedIs, classifyVariant_qualified, classifyVariant_isVariantMethod]

theorem filterMap_classify_as (vis K : String) (vs : List VariantDecl) :
    (vs.map (classifyVariant vis K)).filterMap ClassifiedVariant.asMethod =
      vs.filterMap (expectedAs vis) := by
  induction vs with
  | nil => rfl
  | cons v vs ih => simp [List.filterMap_cons, ih, classifyVariant_asMethod]

theorem filterMap_classify_asMut (vis K : String) (vs : List VariantDecl) :
    (vs.map (classifyVariant vis K)).filterMap ClassifiedVariant.asMutMethod =
      vs.filterMap (expectedAsMut vis) := by
  induction vs with
  | nil => rfl
  | cons v vs ih => simp [List.filterMap_cons, ih, classifyVariant_asMutMethod]

theorem filterMap_classify_into (vis K : String) (vs : List VariantDecl) :
    (vs.map (classifyVariant vis K)).filterMap ClassifiedVariant.intoMethod =
      vs.filterMap (expectedInto vis) := by
  induction vs with
  | nil => rfl
  | cons v vs ih => simp [List.filterMap_cons, ih, classifyVariant_intoMethod]

/-- Shape of the whole output on enum input, expressed against the raw
variant list: this is the central unfolding lemma every claim reads
from. -/
theorem nice_enum_impl_enum (vis ident : String) (g : Generics) (vs : List VariantDecl) :
    nice_enum_impl ⟨vis, ident, g, .enum vs⟩ = some
      ⟨⟨["Debug", "Clone", "Copy", "PartialEq", "Eq", "PartialOrd", "Ord", "Hash"],
        vis, ident ++ "Kind", vs.map VariantDecl.ident⟩,
       ⟨g.implGenerics, ident, g.tyGenerics, g.whereClause,
        [Method.kindFn ⟨vis, "kind", SelfMode.ref, ident ++ "Kind",
            vs.map (expectedArm (ident ++ "Kind"))⟩]
          ++ (vs.map (expectedIs vis (ident ++ "Kind"))).map Method.isFn
          ++ (vs.filterMap (expectedAs vis)).map Method.accessorFn
          ++ (vs.filterMap (expectedAsMut vis)).map Method.accessorFn
          ++ (vs.filterMap (expectedInto vis)).map Method.accessorFn⟩⟩ := by
  simp only [nice_enum_impl, Option.some.injEq]
  rw [map_classify_ident, map_classify_arm, ← map_classify_is vis (ident ++ "Kind") vs,
    filterMap_classify_as, filterMap_classify_asMut, filterMap_classify_into]

theorem filterMap_isFnPart_isFns (l : List IsMethod) :
    (l.map Method.isFn).filterMap isFnPart = l := by
  induction l with
  | nil => rfl
  | cons a l ih => simp [List.filterMap_cons, isFnPart, ih]

theorem filterMap_isFnPart_accessors (l : List AccessorMethod) :
    (l.map Method.accessorFn).filterMap isFnPart = [] := by
  induction l with
  | nil => rfl
  | cons a l ih => simp [List.filterMap_cons, isFnPart, ih]

theorem filterMap_accessorFnPart_accessors (l : List AccessorMethod) :
    (l.map Method.accessorFn).filterMap accessorFnPart = l := by
  induction l with
  | nil => rfl
  | cons a l ih => simp [List.filterMap_cons, accessorFnPart, ih]

theorem filterMap_accessorFnPart_isFns (l : List IsMethod) :
    (l.map Method.isFn).filterMap accessorFnPart = [] := by
  induction l with
  | nil => rfl
  | cons a l ih => simp [List.filterMap_cons, accessorFnPart, ih]

theorem isMethods_of_output (kd : KindDecl) (g1 s g2 w : String) (k : KindMethod)
    (il : List IsMethod) (al ml cl : List AccessorMethod) :
    Output.isMethods
        ⟨kd, ⟨g1, s, g2, w,
          [Method.kindFn k] ++ il.map Method.isFn ++ al.map Method.accessorFn
            ++ ml.map Method.accessorFn ++ cl.map Method.accessorFn⟩⟩ = il := by
  show ([Method.kindFn k] ++ il.map Method.isFn ++ al.map Method.accessorFn
      ++ ml.map Method.accessorFn ++ cl.map Method.accessorFn).filterMap isFnPart = il
  rw [List.filterMap_append, List.filterMap_append, List.filterMap_append,
    List.filterMap_append, filterMap_isFnPart_isFns, filterMap_isFnPart_accessors,
    filterMap_isFnPart_accessors, filterMap_isFnPart_accessors]
  simp [isFnPart]

theorem accessorMethods_of_output (kd : KindDecl) (g1 s g2 w : String) (k : KindMethod)
    (il : List IsMethod) (al ml cl : List AccessorMethod) :
    Output.accessorMethods
        ⟨kd, ⟨g1, s, g2, w,
          [Method.kindFn k] ++ il.map Method.isFn ++ al.map Method.accessorFn
            ++ ml.map Method.accessorFn ++ cl.map Method.accessorFn⟩⟩ = al ++ ml ++ cl := by
  show ([Method.kindFn k] ++ il.map Method.isFn ++ al.map Method.accessorFn
      ++ ml.map Method.accessorFn ++ cl.map Method.accessorFn).filterMap accessorFnPart
      = al ++ ml ++ cl
  rw [List.filterMap_append, List.filterMap_append, List.filterMap_append,
    List.filterMap_append, filterMap_accessorFnPart_isFns, filterMap_accessorFnPart_accessors,
    filterMap_accessorFnPart_accessors, filterMap_accessorFnPart_accessors]
  simp [accessorFnPart]

theorem all_filterMap {α β : Type} (f : α → Option β) (p : β → Bool)
    (h : ∀ v a, f v = some a → p a = true) (vs : List α) :
    ((vs.filterMap f).all p) = true := by
  induction vs with
  | nil => rfl
  | cons v vs ih =>
    simp only [List.filterMap_cons]
    cases hfv : f v with
    | none => exact ih
    | some a => simp [List.all_cons, h v a hfv, ih]

theorem expectedAs_spec (vis : String) (v : VariantDecl) (a : AccessorMethod)
    (h : expectedAs vis v = some a) :
    a.vis = vis ∧ a.selfMode = SelfMode.ref ∧ a.name = "as_" ++ toSnakeCase v.ident ∧
      ∃ t, v.fields = VFields.unnamed [t] ∧ a.innerTy = t ∧ a.variantIdent = v.ident := by
  rcases v with ⟨i, f⟩
  rcases f with f | l | _
  · simp [expectedAs] at h
  · rcases l with _ | ⟨t, l⟩
    · simp [expectedAs] at h
    · rcases l with _ | ⟨t2, l⟩
      · simp only [expectedAs] at h
        injection h with h2
        subst h2
        exact ⟨rfl, rfl, rfl, t, rfl, rfl, rfl⟩
      · simp [expectedAs] at h
  · simp [expectedAs] at h

theorem expectedAsMut_spec (vis : String) (v : VariantDecl) (a : AccessorMethod)
    (h : expectedAsMut vis v = some a) :
    a.vis = vis ∧ a.selfMode = SelfMode.mutRef ∧
      a.name = "as_" ++ toSnakeCase v.ident ++ "_mut" ∧
      ∃ t, v.fields = VFields.unnamed [t] ∧ a.innerTy = t ∧ a.variantIdent = v.ident := by
  rcases v with ⟨i, f⟩
  rcases f with f | l | _
  · simp [expectedAsMut] at h
  · rcases l with _ | ⟨t, l⟩
    · simp [expectedAsMut] at h
    · rcases l with _ | ⟨t2, l⟩
      · simp only [expectedAsMut] at h
        injection h with h2
        subst h2
        exact ⟨rfl, rfl, rfl, t, rfl, rfl, rfl⟩
      · simp [expectedAsMut] at h
  · simp [expectedAsMut] at h

theorem expectedInto_spec (vis : String) (v : VariantDecl) (a : AccessorMethod)
    (h : expectedInto vis v = some a) :
    a.vis = vis ∧ a.selfMode = SelfMode.owned ∧ a.name = "into_" ++ toSnakeCase v.ident ∧
      ∃ t, v.fields = VFields.unnamed [t] ∧ a.innerTy = t ∧ a.variantIdent = v.ident := by
  rcases v with ⟨i, f⟩
  rcases f with f | l | _
  · simp [expectedInto] at h
  · rcases l with _ | ⟨t, l⟩
    · simp [expectedInto] at h
    · rcases l with _ | ⟨t2, l⟩
      · simp only [expectedInto] at h
        injection h with h2
        subst h2
        exact ⟨rfl, rfl, rfl, t, rfl, rfl, rfl⟩
      · simp [expectedInto] at h
  · simp [expectedInto] at h

/-- True exactly for a variant carrying a single unnamed field. -/
def isSingleUnnamed (v : VariantDecl) : Bool :=
  match v.fields with
  | .unnamed [_] => true
  | _ => false

theorem expectedAs_isSome (vis : String) (v : VariantDecl) :
    (expectedAs vis v).isSome = isSingleUnnamed v := by
  rcases v with ⟨i, f⟩
  rcases f with f | l | _
  · rfl
  · rcases l with _ | ⟨t, l⟩
    · rfl
    · rcases l with _ | ⟨t2, l⟩ <;> rfl
  · rfl

theorem expectedAsMut_isSome (vis : String) (v : VariantDecl) :
    (expectedAsMut vis v).isSome = isSingleUnnamed v := by
  rcases v with ⟨i, f⟩
  rcases f with f | l | _
  · rfl
  · rcases l with _ | ⟨t, l⟩
    · rfl
    · rcases l with _ | ⟨t2, l⟩ <;> rfl
  · rfl

theorem expectedInto_isSome (vis : String) (v : VariantDecl) :
    (expectedInto vis v).isSome = isSingleUnnamed v := by
  rcases v with ⟨i, f⟩
  rcases f with f | l | _
  · rfl
  · rcases l with _ | ⟨t, l⟩
    · rfl
    · rcases l with _ | ⟨t2, l⟩ <;> rfl
  · rfl

/-- C1: for every enum input with variants v1..vN in declaration
order, the generated kind type contains exactly N payload-free cases
(the bare variant identifiers, carrying no data by construction of the
emission at src/lib.rs lines 114–120) in the order v1..vN, and the
generated `kind()` method's match contains exactly N arms in that same
order, one per variant: the i-th arm's pattern names the i-th variant
and yields the i-th qualified kind case. -/
theorem kind_cases_and_arms_preserve_declaration_order
    (vis ident : String) (g : Generics) (vs : List VariantDecl) :
    ∃ out k,
      nice_enum_impl ⟨vis, ident, g, .enum vs⟩ = some out ∧
      out.kindDecl.cases = vs.map VariantDecl.ident ∧
      out.kindDecl.cases.length = vs.length ∧
      out.implBlock.methods.head? = some (Method.kindFn k) ∧
      k.arms.length = vs.length ∧
      k.arms.map (fun a => a.pattern.patIdent) = vs.map (fun v => some v.ident) ∧
      k.arms.map MatchArm.target = vs.map (fun v => (ident ++ "Kind", v.ident)) := by
  refine ⟨_, _, nice_enum_impl_enum vis ident g vs, rfl, by simp, rfl, by simp, ?_, ?_⟩
  · simp [List.map_map, expectedArm, classifyVariant_sourceArm_patIdent]
  · simp [List.map_map, expectedArm]

/-- C3: a structural description that is not an enum (a struct or a
union) makes the transformation panic — modelled as returning `none` —
with no output produced, while every enum input passes this check and
yields an output. -/
theorem non_enum_input_panics_enum_input_accepted :
    (∀ (vis ident : String) (g : Generics) (vs : List VariantDecl),
      (nice_enum_impl ⟨vis, ident, g, .enum vs⟩).isSome = true) ∧
    (∀ (vis ident : String) (g : Generics),
      nice_enum_impl ⟨vis, ident, g, .struct⟩ = none) ∧
    (∀ (vis ident : String) (g : Generics),
      nice_enum_impl ⟨vis, ident, g, .union⟩ = none) := by
  refine ⟨fun vis ident g vs => ?_, fun _ _ _ => rfl, fun _ _ _ => rfl⟩
  rw [nice_enum_impl_enum]
  rfl

/-- C4: the structural parts of the claim hold (the generated `kind()`
takes `&self`, has one arm per declared variant in order and no
wildcard arm), but the totality part fails on the code: for
`enum E { Pair(u32, u32) }` the single arm's pattern is
`Self::Pair(_)` — one slot against the variant's two fields — so the
match does not cover the `Pair` value (Rust rejects the generated code
with E0023) and `evalKind` is `none` where the claim requires a
defined result. -/
theorem kind_match_not_total_on_multifield_variant :
    (nice_enum_impl ⟨"pub", "E", ⟨"", "", ""⟩,
        .enum [⟨"Pair", .unnamed ["u32", "u32"]⟩]⟩).map
        (fun o => o.implBlock.methods) =
      some [Method.kindFn ⟨"pub", "kind", .ref, "EKind",
              [⟨Pattern.unnamedWild "Pair" 1, ("EKind", "Pair")⟩]⟩,
            Method.isFn ⟨"pub", "is_pair", .ref, ("EKind", "Pair")⟩] ∧
    evalKind ⟨"pub", "kind", .ref, "EKind",
        [⟨Pattern.unnamedWild "Pair" 1, ("EKind", "Pair")⟩]⟩
      [⟨"Pair", .unnamed ["u32", "u32"]⟩] 0 = none := by
  exact ⟨rfl, rfl⟩

/-- C2: for an unnamed-field variant with two fields the classifier
derives no accessors (that part of the claim holds), but the derived
match pattern is `Self::Pair(_)` — a single-slot pattern, not a payload
wildcard covering any field count — and it fails to match the
variant's own payload shape; the same failure occurs for a zero-field
unnamed variant. -/
theorem multi_unnamed_pattern_slot_mismatch :
    (classifyVariant "pub" "EKind" ⟨"Pair", .unnamed ["u32", "u32"]⟩).sourceArm =
      Pattern.unnamedWild "Pair" 1 ∧
    Pattern.matchesVariant
        (classifyVariant "pub" "EKind" ⟨"Pair", .unnamed ["u32", "u32"]⟩).sourceArm
        ⟨"Pair", .unnamed ["u32", "u32"]⟩ = false ∧
    (classifyVariant "pub" "EKind" ⟨"Pair", .unnamed ["u32", "u32"]⟩).asMethod = none ∧
    (classifyVariant "pub" "EKind" ⟨"Pair", .unnamed ["u32", "u32"]⟩).asMutMethod = none ∧
    (classifyVariant "pub" "EKind" ⟨"Pair", .unnamed ["u32", "u32"]⟩).intoMethod = none ∧
    Pattern.matchesVariant
        (classifyVariant "pub" "EKind" ⟨"Zero", .unnamed []⟩).sourceArm
        ⟨"Zero", .unnamed []⟩ = false := by
  exact ⟨rfl, rfl, rfl, rfl, rfl, rfl⟩

/-- C5: each generated `is_*` predicate is implemented by delegating
to `kind()` and comparing the extracted tag against the variant's
qualified kind case: the emitted predicate list stores, per variant in
order, exactly that variant's qualified case, and the predicate's
evaluation on any value equals comparing `kind()`'s result against it
(`x.is_v() == (x.kind() == Kind::v)`). -/
theorem is_predicates_delegate_to_kind
    (vis ident : String) (g : Generics) (vs : List VariantDecl) :
    ∃ out k,
      nice_enum_impl ⟨vis, ident, g, .enum vs⟩ = some out ∧
      out.implBlock.methods.head? = some (Method.kindFn k) ∧
      Output.isMethods out = vs.map (expectedIs vis (ident ++ "Kind")) ∧
      ∀ i : Fin vs.length, ∀ idx : Nat,
        evalIs (expectedIs vis (ident ++ "Kind") (vs.get i)) k vs idx =
          (evalKind k vs idx).map
            (fun t => t == (ident ++ "Kind", (vs.get i).ident)) := by
  refine ⟨_, _, nice_enum_impl_enum vis ident g vs, rfl, ?_, ?_⟩
  · exact isMethods_of_output _ _ _ _ _ _ _ _ _ _
  · intro i idx
    rfl

/-- C6: accessor derivation is exact — the emitted accessor list is
the single-unnamed-field variants' accessors and nothing else (the
per-variant derivations are present exactly when the shape is a single
unnamed field, with names `as_<snake>`, `as_<snake>_mut`,
`into_<snake>`), and concretely a variant `UnnamedFields(u32)` yields
`is_unnamed_fields`, `as_unnamed_fields`, `as_unnamed_fields_mut` and
`into_unnamed_fields` while a named-field variant `NamedFields` yields
only `is_named_fields`. -/
theorem accessors_exactly_for_single_unnamed_field
    (vis ident : String) (g : Generics) (vs : List VariantDecl) :
    ∃ out,
      nice_enum_impl ⟨vis, ident, g, .enum vs⟩ = some out ∧
      Output.accessorMethods out =
        vs.filterMap (expectedAs vis) ++ vs.filterMap (expectedAsMut vis)
          ++ vs.filterMap (expectedInto vis) ∧
      (∀ v : VariantDecl, (expectedAs vis v).isSome = isSingleUnnamed v) ∧
      (∀ v : VariantDecl, (expectedAsMut vis v).isSome = isSingleUnnamed v) ∧
      (∀ v : VariantDecl, (expectedInto vis v).isSome = isSingleUnnamed v) ∧
      ((vs.filterMap (expectedAs vis)).all
        (fun a => a.name == "as_" ++ toSnakeCase a.variantIdent)) = true ∧
      ((vs.filterMap (expectedAsMut vis)).all
        (fun a => a.name == "as_" ++ toSnakeCase a.variantIdent ++ "_mut")) = true ∧
      ((vs.filterMap (expectedInto vis)).all
        (fun a => a.name == "into_" ++ toSnakeCase a.variantIdent)) = true ∧
      ((nice_enum_impl ⟨"pub", "MyEnum", ⟨"", "", ""⟩,
          .enum [⟨"NamedFields", .named [("a", "u32")]⟩,
                 ⟨"UnnamedFields", .unnamed ["u32"]⟩]⟩).map
        (fun o => o.implBlock.methods.map Method.name)) =
        some ["kind", "is_named_fields", "is_unnamed_fields", "as_unnamed_fields",
              "as_unnamed_fields_mut", "into_unnamed_fields"] := by
  refine ⟨_, nice_enum_impl_enum vis ident g vs,
    accessorMethods_of_output _ _ _ _ _ _ _ _ _ _,
    expectedAs_isSome vis, expectedAsMut_isSome vis, expectedInto_isSome vis,
    ?_, ?_, ?_, rfl⟩
  · refine all_filterMap _ _ (fun v a h => ?_) vs
    rcases expectedAs_spec vis v a h with ⟨_, _, hn, t, _, _, hv⟩
    simp [hn, hv]
  · refine all_filterMap _ _ (fun v a h => ?_) vs
    rcases expectedAsMut_spec vis v a h with ⟨_, _, hn, t, _, _, hv⟩
    simp [hn, hv]
  · refine all_filterMap _ _ (fun v a h => ?_) vs
    rcases expectedInto_spec vis v a h with ⟨_, _, hn, t, _, _, hv⟩
    simp [hn, hv]

/-- C7: the generated impl block emits its methods in the fixed order
`kind()` first, then all predicates in input variant order, then all
borrowing accessors (single-unnamed-field variants only, input order),
then all mutable-borrowing accessors, then all consuming accessors,
the three accessor segments taking `&self`, `&mut self` and `self`
respectively. -/
theorem impl_methods_emission_order
    (vis ident : String) (g : Generics) (vs : List VariantDecl) :
    ∃ out,
      nice_enum_impl ⟨vis, ident, g, .enum vs⟩ = some out ∧
      out.implBlock.methods =
        [Method.kindFn ⟨vis, "kind", .ref, ident ++ "Kind",
            vs.map (expectedArm (ident ++ "Kind"))⟩]
          ++ (vs.map (expectedIs vis (ident ++ "Kind"))).map Method.isFn
          ++ (vs.filterMap (expectedAs vis)).map Method.accessorFn
          ++ (vs.filterMap (expectedAsMut vis)).map Method.accessorFn
          ++ (vs.filterMap (expectedInto vis)).map Method.accessorFn ∧
      ((vs.map (expectedIs vis (ident ++ "Kind"))).all
        (fun m => m.selfMode == SelfMode.ref)) = true ∧
      ((vs.filterMap (expectedAs vis)).all
        (fun a => a.selfMode == SelfMode.ref)) = true ∧
      ((vs.filterMap (expectedAsMut vis)).all
        (fun a => a.selfMode == SelfMode.mutRef)) = true ∧
      ((vs.filterMap (expectedInto vis)).all
        (fun a => a.selfMode == SelfMode.owned)) = true := by
  refine ⟨_, nice_enum_impl_enum vis ident g vs, rfl, ?_, ?_, ?_, ?_⟩
  · simp [List.all_map, expectedIs]
  · exact all_filterMap _ _
      (fun v a h => by simp [(expectedAs_spec vis v a h).2.1]) vs
  · exact all_filterMap _ _
      (fun v a h => by simp [(expectedAsMut_spec vis v a h).2.1]) vs
  · exact all_filterMap _ _
      (fun v a h => by simp [(expectedInto_spec vis v a h).2.1]) vs

/-- C8: the emitted kind type is named `<SumTypeName>Kind`, carries
the input type's visibility, and its derive list contains the
capability markers PartialEq, Eq, PartialOrd, Ord, Hash and Copy. -/
theorem kind_type_naming_visibility_and_capability_markers
    (vis ident : String) (g : Generics) (vs : List VariantDecl) :
    ∃ out,
      nice_enum_impl ⟨vis, ident, g, .enum vs⟩ = some out ∧
      out.kindDecl.ident = ident ++ "Kind" ∧
      out.kindDecl.vis = vis ∧
      "PartialEq" ∈ out.kindDecl.derives ∧ "Eq" ∈ out.kindDecl.derives ∧
      "PartialOrd" ∈ out.kindDecl.derives ∧ "Ord" ∈ out.kindDecl.derives ∧
      "Hash" ∈ out.kindDecl.derives ∧ "Copy" ∈ out.kindDecl.derives := by
  refine ⟨_, nice_enum_impl_enum vis ident g vs, rfl, rfl, ?_, ?_, ?_, ?_, ?_, ?_⟩ <;> simp

/-- C9: the generated method set sits in an impl block scoped to the
source type with the input's impl-generics, type-generics and where
clause reproduced unchanged, and every generated method carries the
input type's visibility. -/
theorem impl_block_reproduces_generics_and_visibility
    (vis ident : String) (g : Generics) (vs : List VariantDecl) :
    ∃ out,
      nice_enum_impl ⟨vis, ident, g, .enum vs⟩ = some out ∧
      out.implBlock.implGenerics = g.implGenerics ∧
      out.implBlock.selfTy = ident ∧
      out.implBlock.tyGenerics = g.tyGenerics ∧
      out.implBlock.whereClause = g.whereClause ∧
      (out.implBlock.methods.all (fun m => Method.vis m == vis)) = true := by
  refine ⟨_, nice_enum_impl_enum vis ident g vs, rfl, rfl, rfl, rfl, ?_⟩
  rw [List.all_eq_true]
  intro m hm
  simp only [List.mem_append, List.mem_singleton, List.mem_map,
    List.mem_filterMap] at hm
  rcases hm with ((((rfl | ⟨p, ⟨v, hv, rfl⟩, rfl⟩) | ⟨a, ⟨v, hv, ha⟩, rfl⟩) |
    ⟨a, ⟨v, hv, ha⟩, rfl⟩) | ⟨a, ⟨v, hv, ha⟩, rfl⟩)
  · simp [Method.vis]
  · simp [Method.vis, expectedIs]
  · simp [Method.vis, (expectedAs_spec vis v a ha).1]
  · simp [Method.vis, (expectedAsMut_spec vis v a ha).1]
  · simp [Method.vis, (expectedInto_spec vis v a ha).1]

/-- C10: the emitted kind type's derive list is exactly Debug, Clone,
Copy, PartialEq, Eq, PartialOrd, Ord, Hash — in particular it carries
Debug and Clone beyond the comparability, ordering, hashing and
copyability markers the spec promises. -/
theorem kind_type_derives_include_debug_and_clone
    (vis ident : String) (g : Generics) (vs : List VariantDecl) :
    ∃ out,
      nice_enum_impl ⟨vis, ident, g, .enum vs⟩ = some out ∧
      out.kindDecl.derives =
        ["Debug", "Clone", "Copy", "PartialEq", "Eq", "PartialOrd", "Ord", "Hash"] ∧
      "Debug" ∈ out.kindDecl.derives ∧ "Clone" ∈ out.kindDecl.derives := by
  refine ⟨_, nice_enum_impl_enum vis ident g vs, rfl, ?_, ?_⟩ <;> simp
